import Mathlib

/-!
Verification development for the PS2 title renamer script (`script.py`).

The script fetches a paginated JSON catalog of PS2 titles, builds a
serial-code → title mapping, and renames disc-image files in the working
directory.  Strings are modelled as `List Char`; Python's `str.strip`,
`str.lower`, `pathlib.Path.stem`/`.suffix`, and the two regular
expressions of the script are embedded explicitly below.
-/

namespace PS2

/-- Strings are modelled as lists of characters. -/
abbrev Str := List Char

/-- Python's whitespace set (ASCII part), as used by `str.strip` and `\s`. -/
def pyIsSpace (c : Char) : Bool :=
  c == ' ' || c == '\t' || c == '\n' || c == '\r' || c == '\x0b' || c == '\x0c'

/-- Python `str.strip()`: drop leading and trailing whitespace. -/
def pyStrip (l : Str) : Str :=
  ((l.dropWhile pyIsSpace).reverse.dropWhile pyIsSpace).reverse

/-- Python `str.lower()` (ASCII part). -/
def pyLower (l : Str) : Str := l.map Char.toLower

/-- The nine characters removed by `sanitize_filename` (`[<>:"/\\|?*]`). -/
def isIllegalChar (c : Char) : Bool :=
  (['<', '>', ':', '"', '/', '\\', '|', '?', '*'] : List Char).contains c

/-- `sanitize_filename` (script.py:72-74): remove the illegal characters,
then strip leading/trailing whitespace. -/
def sanitize_filename (l : Str) : Str :=
  pyStrip (l.filter (fun c => !isIllegalChar c))

/-! ### The serial-code pattern `^[A-Z]{4}-\d{5}$` (script.py:84) -/

/-- ASCII uppercase letter, the `[A-Z]` character class. -/
def isAZ (c : Char) : Bool := 'A' ≤ c && c ≤ 'Z'

/-- ASCII digit, the `\d` character class (ASCII part). -/
def isDigit09 (c : Char) : Bool := '0' ≤ c && c ≤ '9'

/-- Exactly four uppercase letters, a hyphen, five digits (`LLLL-NNNNN`). -/
def isSerialCore (l : Str) : Bool :=
  l.length == 10 && (l.take 4).all isAZ && l.getD 4 ' ' == '-'
    && (l.drop 5).all isDigit09

/-- Python `re.match(r"^[A-Z]{4}-\d{5}$", s)`: in Python, `$` also matches
just before a single trailing newline, so a candidate consisting of the
core pattern followed by `'\n'` matches as well. -/
def reMatchSerial (l : Str) : Bool :=
  isSerialCore l || (l.getLast? == some '\n' && isSerialCore l.dropLast)

/-- Modelled from the spec: the glossary's Serial Code format `LLLL-NNNNN`
(4 letters, hyphen, 5 digits), an exact full-string format with no
newline tolerance. -/
def specSerialFormat (l : Str) : Bool := isSerialCore l

/-! ### The stem-trimming regex `re.sub(r"\s*\(.*\)$", "", base)` (script.py:83) -/

/-- Number of leading regex-whitespace characters. -/
def wsCount (l : Str) : Nat := (l.takeWhile pyIsSpace).length

/-- No newline in the list (`.` in Python regex does not match `'\n'`). -/
def noNL (l : Str) : Bool := !(l.contains '\n')

/-- Given the index `j` of the `'('`, the index of the `')'` closing a match
of `\(.*\)$`, if any.  Because `$` matches only at the end of the string or
before a final newline, the closing `')'` can only be the last or the
second-to-last character; the greedy `.*` prefers the last. -/
def parenClose (s : Str) (j : Nat) : Option Nat :=
  if j + 1 < s.length && s.getD (s.length - 1) ' ' == ')'
      && noNL ((s.drop (j + 1)).take (s.length - 1 - (j + 1))) then
    some (s.length - 1)
  else if j + 2 < s.length && s.getD (s.length - 2) ' ' == ')'
      && s.getD (s.length - 1) ' ' == '\n'
      && noNL ((s.drop (j + 1)).take (s.length - 2 - (j + 1))) then
    some (s.length - 2)
  else
    none

/-- Does `\s*\(.*\)$` match starting at position `i`?  If so, return the
index of the closing `')'`.  The `\s*` must take the whole whitespace run
(the following `'('` is not whitespace). -/
def matchAt (s : Str) (i : Nat) : Option Nat :=
  if i + wsCount (s.drop i) < s.length && s.getD (i + wsCount (s.drop i)) ' ' == '(' then
    parenClose s (i + wsCount (s.drop i))
  else none

/-- The leftmost match of `\s*\(.*\)$`: start position and closing index. -/
def findParen (s : Str) : Option (Nat × Nat) :=
  (List.range s.length).findSome? (fun i => (matchAt s i).map (fun k => (i, k)))

/-- `re.sub(r"\s*\(.*\)$", "", s)`: remove the leftmost match (at most one
match can occur, since the pattern is anchored at the end). -/
def stripParen (s : Str) : Str :=
  match findParen s with
  | none => s
  | some (i, k) => s.take i ++ s.drop (k + 1)

/-! ### `pathlib.Path.stem` / `.suffix` -/

/-- Index of the last `'.'` in the list, if any. -/
def lastDotIdx : Str → Option Nat
  | [] => none
  | c :: cs =>
    match lastDotIdx cs with
    | some i => some (i + 1)
    | none => if c == '.' then some 0 else none

/-- `pathlib`'s `Path.suffix` for a plain file name: the part from the last
dot on, provided the dot is neither the first nor the last character. -/
def pySuffix (l : Str) : Str :=
  match lastDotIdx l with
  | some i => if 0 < i ∧ i + 1 < l.length then l.drop i else []
  | none => []

/-- `pathlib`'s `Path.stem` for a plain file name: the name without its
`pySuffix`. -/
def pyStem (l : Str) : Str :=
  match lastDotIdx l with
  | some i => if 0 < i ∧ i + 1 < l.length then l.take i else l
  | none => l

/-! ### Catalog data model (script.py JSON shape) -/

/-- One element of `name.translations`. -/
structure Trans where
  language : Option Str
  value : Option Str
deriving DecidableEq

/-- The `name` structure of a catalog entry. -/
structure NameInfo where
  default_value : Option Str
  translations : Option (List Trans)
deriving DecidableEq

/-- A catalog entry (one element of a page's `results`). -/
structure Entry where
  systems : Option (List Str)
  content_type : Option Str
  title_id_type : Option Str
  title_id_number : Option Str
  name : Option NameInfo
deriving DecidableEq

/-- A catalog page: `results` plus the `next` URL (absent ⇒ `none`). -/
structure Page where
  results : List Entry
  next : Option Str
deriving DecidableEq

/-- Does `pat` occur at the start of `l`? -/
def startsWith : Str → Str → Bool
  | [], _ => true
  | _ :: _, [] => false
  | a :: as, b :: bs => a == b && startsWith as bs

/-- Python's substring test `pat in l`. -/
def strHasSub (pat : Str) : Str → Bool
  | [] => pat.isEmpty
  | b :: bs => startsWith pat (b :: bs) || strHasSub pat bs

/-- The translation test of `pick_title`'s loop (script.py:38-40):
value non-empty after stripping, and the lowercased language tag has
`"english"` as a substring. -/
def transQualifies (t : Trans) : Bool :=
  !(pyStrip (t.value.getD [])).isEmpty
    && strHasSub ("english".toList) (pyLower (t.language.getD []))

/-- `pick_title` (script.py:33-42): the stripped value of the first
qualifying translation, else the stripped default title. -/
def pick_title (e : Entry) : Str :=
  let name_info := e.name.getD ⟨none, none⟩
  let default_title := pyStrip (name_info.default_value.getD [])
  match (name_info.translations.getD []).find? transQualifies with
  | some t => pyStrip (t.value.getD [])
  | none => default_title

/-- A serial-to-title mapping, in insertion order with unique keys. -/
abbrev SMap := List (Str × Str)

/-- Python `dict` lookup on the association list. -/
def lookupS (k : Str) : SMap → Option Str
  | [] => none
  | (a, b) :: rest => if a = k then some b else lookupS k rest

/-- The mutable state of `build_ps2_title_mapping`: `mapping` and `seen_ids`. -/
structure BState where
  mapping : SMap
  seen : List Str
deriving DecidableEq

/-- The filter cascade of `build_ps2_title_mapping` (script.py:53-61): the
serial code if the entry passes the platform, content-type and
serial-component checks, else `none` (the `continue` branches). -/
def acceptSerial (e : Entry) : Option Str :=
  if ("PlayStation 2".toList) ∉ e.systems.getD [] then none
  else if pyLower (e.content_type.getD []) ≠ ("game".toList) then none
  else
    let t_type := pyStrip (e.title_id_type.getD [])
    let t_num := pyStrip (e.title_id_number.getD [])
    if t_type = [] ∨ t_num = [] then none
    else some (t_type ++ '-' :: t_num)

/-- The per-entry body of `build_ps2_title_mapping`'s inner loop
(script.py:52-67): skip filtered entries and already-seen serials, record
the title when it is non-empty. -/
def entryStep (st : BState) (e : Entry) : BState :=
  match acceptSerial e with
  | none => st
  | some serial =>
    if serial ∈ st.seen then st
    else
      let title := pick_title e
      if title = [] then st
      else ⟨st.mapping ++ [(serial, title)], serial :: st.seen⟩

/-- The entry loop over a flattened page-then-entry sequence of entries. -/
def buildFromEntries (l : List Entry) : SMap :=
  (l.foldl entryStep ⟨[], []⟩).mapping

/-- The starting URL (script.py:18-21). -/
def START_URL : Str :=
  ("https://api.serialstation.com/titles/?title_id_type=&title_id_number=&systems=b88ad131-ac80-458e-81a1-33ec9e75ea8a").toList

/-- The pagination loop of `build_ps2_title_mapping` (script.py:50-68),
with `fetch_json` as an explicit fallible function and a fuel bound (the
Python loop has no bound; `none` means the fuel ran out).  Returns the
list of URLs fetched and the final state.  A raised exception from
`fetch_json` is an `Except.error` that propagates out of the loop. -/
def buildLoopE (fetch : Str → Except Str Page) :
    Nat → Option Str → BState → Option (Except Str (List Str × BState))
  | 0, _, _ => none
  | _ + 1, none, st => some (Except.ok ([], st))
  | fuel + 1, some u, st =>
    if u = [] then some (Except.ok ([], st))
    else
      match fetch u with
      | Except.error e => some (Except.error e)
      | Except.ok page =>
        match buildLoopE fetch fuel page.next (page.results.foldl entryStep st) with
        | none => none
        | some (Except.error e) => some (Except.error e)
        | some (Except.ok (tr, st')) => some (Except.ok (u :: tr, st'))

/-- `build_ps2_title_mapping` (script.py:44-70): run the pagination loop
from `START_URL` and return the mapping. -/
def build_ps2_title_mapping (fetch : Str → Except Str Page) (fuel : Nat) :
    Option (Except Str SMap) :=
  match buildLoopE fetch fuel (some START_URL) ⟨[], []⟩ with
  | none => none
  | some (Except.error e) => some (Except.error e)
  | some (Except.ok (_, st)) => some (Except.ok st.mapping)

/-! ### The renamer (script.py:76-97) -/

/-- One directory entry: its name and whether it is a regular file. -/
structure FsEntry where
  name : Str
  isFile : Bool
deriving DecidableEq

/-- Console events of the rename loop: a successful rename (old, new), a
caught rename error (old name; the script prints the exception), or a
serial not found in the mapping (code, old name). -/
inductive Event where
  | renamed : Str → Str → Event
  | renameError : Str → Event
  | notFound : Str → Str → Event
deriving DecidableEq

/-- Did this event involve a rename attempt (successful or failed)? -/
def isRenameAttempt : Event → Bool
  | Event.renamed _ _ => true
  | Event.renameError _ => true
  | Event.notFound _ _ => false

/-- One iteration of `rename_ps2_files`'s loop (script.py:78-97).
`oracle old new` tells whether `file_path.rename(new_path)` succeeds; a
failure is caught by the `except` branch.  Returns the logged event (if
any) and the resulting directory entry. -/
def processFile (m : SMap) (oracle : Str → Str → Bool) (f : FsEntry) :
    Option Event × FsEntry :=
  if f.isFile = false then (none, f)
  else
    let base_name := pyStem f.name
    let ext := pySuffix f.name
    let code := stripParen base_name
    if reMatchSerial code = false then (none, f)
    else
      match lookupS code m with
      | some raw_title =>
        let clean_title := sanitize_filename raw_title
        let new_name := clean_title ++ ext
        if oracle f.name new_name then (some (Event.renamed f.name new_name), ⟨new_name, true⟩)
        else (some (Event.renameError f.name), f)
      | none => (some (Event.notFound code f.name), f)

/-- `rename_ps2_files` (script.py:76-97): the events logged over a fixed
directory listing. -/
def rename_ps2_files (m : SMap) (oracle : Str → Str → Bool)
    (files : List FsEntry) : List Event :=
  files.filterMap (fun f => (processFile m oracle f).fst)

/-- The directory listing after a run of `rename_ps2_files`. -/
def runListing (m : SMap) (oracle : Str → Str → Bool)
    (files : List FsEntry) : List FsEntry :=
  files.map (fun f => (processFile m oracle f).snd)

/-- `main` (script.py:99-101): build the mapping, then rename.  An
exception from the fetch phase propagates and no rename events occur. -/
def main (fetch : Str → Except Str Page) (fuel : Nat)
    (oracle : Str → Str → Bool) (files : List FsEntry) :
    Option (Except Str (List Event)) :=
  match build_ps2_title_mapping fetch fuel with
  | none => none
  | some (Except.error e) => some (Except.error e)
  | some (Except.ok m) => some (Except.ok (rename_ps2_files m oracle files))

/-- The `while url:` continuation test combined with reading `next`:
the next request URL, `none` when the field is absent/null/empty. -/
def nextUrl (p : Page) : Option Str :=
  match p.next with
  | none => none
  | some u => if u = [] then none else some u

/-- `followsB fetch u us` holds when the pagination loop started at `u`
visits exactly the URLs `us` in order: each fetch succeeds, each page's
`next` field is the following URL, and the last page's `next` is
absent/null/empty. -/
def followsB (fetch : Str → Except Str Page) : Str → List Str → Bool
  | _, [] => false
  | u, v :: rest =>
    u == v && !(v == []) &&
      (match fetch v with
       | Except.error _ => false
       | Except.ok p =>
         match nextUrl p, rest with
         | none, [] => true
         | some w, _ :: _ => followsB fetch w rest
         | _, _ => false)

/-- `reachesB fetch s us u` holds when the pagination loop started at `s`
successfully fetches the URLs `us` in order and then requests `u` next. -/
def reachesB (fetch : Str → Except Str Page) : Str → List Str → Str → Bool
  | s, [], u => s == u && !(s == [])
  | s, v :: rest, u =>
    s == v && !(v == []) &&
      (match fetch v with
       | Except.error _ => false
       | Except.ok p =>
         match nextUrl p with
         | none => false
         | some w => reachesB fetch w rest u)

/-! ### Concrete fixtures used by witnesses and counterexamples -/

/-- Rename oracle under which every rename succeeds. -/
def oracleT : Str → Str → Bool := fun _ _ => true

/-- Rename oracle under which every rename fails. -/
def oracleF : Str → Str → Bool := fun _ _ => false

/-- A French translation entry. -/
def transFr : Trans := ⟨some ("French".toList), some ("X".toList)⟩

/-- An English (US) translation entry. -/
def transEn : Trans := ⟨some ("English (US)".toList), some ("Y".toList)⟩

/-- Entry with a French and an English translation and default `"Z"`. -/
def entryC2a : Entry :=
  ⟨none, none, none, none, some ⟨some ("Z".toList), some [transFr, transEn]⟩⟩

/-- Entry with only a French translation and default `"Z"`. -/
def entryC2b : Entry :=
  ⟨none, none, none, none, some ⟨some ("Z".toList), some [transFr]⟩⟩

/-- Entry with no name information at all. -/
def entryC2c : Entry := ⟨none, none, none, none, none⟩

/-- A qualifying PS2 game entry whose serial components are `"X"` and
`"1"`, hence whose serial is not of the `LLLL-NNNNN` format. -/
def entryBad : Entry :=
  ⟨some [("PlayStation 2".toList)], some ("game".toList), some ("X".toList),
    some ("1".toList), some ⟨some ("T".toList), none⟩⟩

/-- Single-page catalog containing only `entryBad`. -/
def fetchBad : Str → Except Str Page := fun _ => Except.ok ⟨[entryBad], none⟩

/-- A well-formed PS2 game entry, serial `SCUS-12345`, title `"Game"`. -/
def entryGood : Entry :=
  ⟨some [("PlayStation 2".toList)], some ("game".toList), some ("SCUS".toList),
    some ("12345".toList), some ⟨some ("Game".toList), none⟩⟩

/-- Single-page catalog containing only `entryGood`. -/
def fetchGood : Str → Except Str Page := fun _ => Except.ok ⟨[entryGood], none⟩

/-- First entry with serial `SCUS-12345`, titled `"First"`. -/
def entry3a : Entry :=
  ⟨some [("PlayStation 2".toList)], some ("game".toList), some ("SCUS".toList),
    some ("12345".toList), some ⟨some ("First".toList), none⟩⟩

/-- Second entry with the same serial `SCUS-12345`, titled `"Second"`. -/
def entry3b : Entry :=
  ⟨some [("PlayStation 2".toList)], some ("game".toList), some ("SCUS".toList),
    some ("12345".toList), some ⟨some ("Second".toList), none⟩⟩

/-- Mapping whose key carries a trailing newline, matched by the script's
regex thanks to Python's `$` semantics. -/
def mapC5 : SMap := [(("ABCD-12345\n".toList), ("T".toList))]

/-- Mapping `{"SCUS-12345": "Game"}`. -/
def mapC6 : SMap := [(("SCUS-12345".toList), ("Game".toList))]

/-- Mapping whose only title consists solely of illegal characters. -/
def mapC10 : SMap := [(("AAAA-11111".toList), (":::".toList))]

/-- Mapping in which one title is itself another mapping key: renaming
`AAAA-11111.iso` produces `BBBB-22222.iso`, which a second run renames
again. -/
def m8 : SMap :=
  [(("AAAA-11111".toList), ("BBBB-22222".toList)),
   (("BBBB-22222".toList), ("Cool".toList))]

/-- Directory containing the single file `AAAA-11111.iso`. -/
def files8 : List FsEntry := [⟨"AAAA-11111.iso".toList, true⟩]

/-- Mapping whose title is an ordinary game name. -/
def mW8 : SMap := [(("AAAA-11111".toList), ("Cool Game".toList))]

/-- Directory containing a file whose serial is not in `mW8`. -/
def filesW8 : List FsEntry := [⟨"BBBB-22222.iso".toList, true⟩]

/-- A fetch that always raises. -/
def fetchFail : Str → Except Str Page := fun _ => Except.error ("boom".toList)

/-- A fetch that always returns one final empty page. -/
def fetchOne : Str → Except Str Page := fun _ => Except.ok ⟨[], none⟩

/-- Shape of each pair recorded by the Mapping Builder: the key is
`{trimmed type}-{trimmed number}` with both components non-empty, and the
title is non-empty. -/
def GoodPair (p : Str × Str) : Prop :=
  (∃ a b, a ≠ [] ∧ b ≠ [] ∧ p.1 = a ++ '-' :: b) ∧ p.2 ≠ []

/-- Well-formedness of the builder state: every recorded key is in
`seen_ids`. -/
def WfState (st : BState) : Prop := ∀ p ∈ st.mapping, p.1 ∈ st.seen

/-! ## Helper lemmas -/

theorem lookupS_mem {k v : Str} : ∀ {m : SMap}, lookupS k m = some v → (k, v) ∈ m
  | [], h => by simp [lookupS] at h
  | (a, b) :: rest, h => by
    by_cases hak : a = k
    · simp [lookupS, hak] at h
      simp [hak, h]
    · simp [lookupS, hak] at h
      exact List.mem_cons_of_mem _ (lookupS_mem h)

theorem lookupS_append_ne {k k' t : Str} (h : k' ≠ k) :
    ∀ m : SMap, lookupS k (m ++ [(k', t)]) = lookupS k m
  | [] => by simp [lookupS, h]
  | (a, b) :: rest => by
    by_cases hak : a = k <;> simp [lookupS, hak, lookupS_append_ne h rest]

theorem lookupS_append_none {k : Str} :
    ∀ {m : SMap}, lookupS k m = none → ∀ l2, lookupS k (m ++ l2) = lookupS k l2
  | [], _, l2 => rfl
  | (a, b) :: rest, h, l2 => by
    by_cases hak : a = k
    · simp [lookupS, hak] at h
    · simp [lookupS, hak] at h ⊢
      exact lookupS_append_none h l2

theorem pyStrip_sublist (l : Str) : List.Sublist (pyStrip l) l := by
  have h1 : List.Sublist (l.dropWhile pyIsSpace) l := List.dropWhile_sublist pyIsSpace
  have h2 : List.Sublist ((l.dropWhile pyIsSpace).reverse.dropWhile pyIsSpace)
      (l.dropWhile pyIsSpace).reverse := List.dropWhile_sublist pyIsSpace
  have h3 := h2.reverse
  rw [List.reverse_reverse] at h3
  exact h3.trans h1

theorem dropWhile_eq_nil_of_all {p : Char → Bool} :
    ∀ {l : Str}, (∀ c ∈ l, p c = true) → l.dropWhile p = []
  | [], _ => rfl
  | c :: cs, h => by
    have hc : p c = true := h c (List.mem_cons_self c cs)
    rw [List.dropWhile_cons_of_pos hc]
    exact dropWhile_eq_nil_of_all (fun x hx => h x (List.mem_cons_of_mem _ hx))

theorem pyStrip_eq_nil_of_all_space {l : Str} (h : ∀ c ∈ l, pyIsSpace c = true) :
    pyStrip l = [] := by
  unfold pyStrip
  rw [dropWhile_eq_nil_of_all h]
  rfl

theorem sanitize_eq_nil {t : Str}
    (h : ∀ c ∈ t, isIllegalChar c = true ∨ pyIsSpace c = true) :
    sanitize_filename t = [] := by
  unfold sanitize_filename
  apply pyStrip_eq_nil_of_all_space
  intro c hc
  obtain ⟨hmem, hkeep⟩ := List.mem_filter.mp hc
  rcases h c hmem with hbad | hspace
  · rw [hbad] at hkeep
    simp at hkeep
  · exact hspace

theorem isSerialCore_head {a : Char} {t : Str}
    (h : isSerialCore (a :: t) = true) : isAZ a = true := by
  unfold isSerialCore at h
  simp only [Bool.and_eq_true] at h
  obtain ⟨⟨⟨_, htake⟩, _⟩, _⟩ := h
  have hmem : a ∈ (a :: t).take 4 := by
    rw [List.take_succ_cons]
    exact List.mem_cons_self _ _
  exact List.all_eq_true.mp htake a hmem

theorem reMatchSerial_head {l : Str} (h : reMatchSerial l = true) :
    ∃ a t, l = a :: t ∧ isAZ a = true := by
  cases l with
  | nil => simp [reMatchSerial, isSerialCore] at h
  | cons a t =>
    refine ⟨a, t, rfl, ?_⟩
    unfold reMatchSerial at h
    rcases Bool.or_eq_true_iff.mp h with hcore | htail
    · exact isSerialCore_head hcore
    · rcases Bool.and_eq_true_iff.mp htail with ⟨_, hdrop⟩
      cases t with
      | nil => simp [isSerialCore] at hdrop
      | cons b t' =>
        rw [List.dropLast_cons₂] at hdrop
        exact isSerialCore_head hdrop

theorem reMatchSerial_nil : reMatchSerial [] = false := by decide

theorem reMatchSerial_newline : reMatchSerial ['\n'] = false := by decide

theorem parenClose_spec {s : Str} {j k : Nat} (h : parenClose s j = some k) :
    k + 1 = s.length ∨ (k + 2 = s.length ∧ s.getD (s.length - 1) ' ' = '\n') := by
  unfold parenClose at h
  split at h
  · rename_i hc
    left
    simp only [Option.some.injEq] at h
    subst h
    simp only [Bool.and_eq_true, decide_eq_true_eq] at hc
    omega
  · split at h
    · rename_i hc
      right
      simp only [Option.some.injEq] at h
      subst h
      simp only [Bool.and_eq_true, decide_eq_true_eq] at hc
      refine ⟨by omega, ?_⟩
      exact eq_of_beq hc.1.2
    · exact absurd h (by simp)

theorem findParen_spec {s : Str} {i k : Nat} (h : findParen s = some (i, k)) :
    parenClose s (i + wsCount (s.drop i)) = some k := by
  unfold findParen at h
  obtain ⟨a, _, ha⟩ := List.exists_of_findSome?_eq_some h
  unfold matchAt at ha
  split at ha
  · simp only [Option.map_eq_some'] at ha
    obtain ⟨k', hk', heq⟩ := ha
    · cases heq
      exact hk'
  · simp at ha

theorem drop_pred_eq_last {s : Str} (hne : s ≠ []) :
    s.drop (s.length - 1) = [s.getD (s.length - 1) ' '] := by
  induction s with
  | nil => exact absurd rfl hne
  | cons a t ih =>
    cases t with
    | nil => rfl
    | cons b t' =>
      have hne' : (b :: t') ≠ [] := by simp
      have := ih hne'
      simp only [List.length_cons] at this ⊢
      simpa [List.drop, List.getD] using this

theorem stripParen_shape (s : Str) :
    stripParen s = [] ∨ stripParen s = ['\n'] ∨ (stripParen s).head? = s.head? := by
  unfold stripParen
  cases hfp : findParen s with
  | none => right; right; rfl
  | some ik =>
    obtain ⟨i, k⟩ := ik
    have hpc := findParen_spec hfp
    have hks := parenClose_spec hpc
    cases i with
    | zero =>
      rcases hks with hk1 | ⟨hk2, hlast⟩
      · left
        simp only [List.take_zero, List.nil_append]
        rw [hk1]
        exact List.drop_length s
      · right; left
        simp only [List.take_zero, List.nil_append]
        have hlen : s.length - 1 = k + 1 := by omega
        have hne : s ≠ [] := by
          intro h0
          rw [h0] at hk2
          simp at hk2
        have hdp := drop_pred_eq_last hne
        rw [hlen] at hdp
        rw [hlen] at hlast
        rw [hdp, hlast]
    | succ i' =>
      right; right
      cases s with
      | nil =>
        simp [parenClose] at hpc
      | cons a t =>
        simp [List.take_succ_cons]

theorem reMatchSerial_stripParen_false {s : Str} {c : Char}
    (hhead : s.head? = some c) (hc : isAZ c = false) :
    reMatchSerial (stripParen s) = false := by
  rcases stripParen_shape s with h0 | h1 | hh
  · rw [h0]; exact reMatchSerial_nil
  · rw [h1]; exact reMatchSerial_newline
  · by_contra hmatch
    rw [Bool.not_eq_false] at hmatch
    obtain ⟨a, t, hat, haz⟩ := reMatchSerial_head hmatch
    rw [hat] at hh
    simp only [List.head?_cons] at hh
    rw [hhead] at hh
    cases hh
    rw [haz] at hc
    cases hc

/-! ### `lastDotIdx`, `pyStem`, `pySuffix` lemmas -/

theorem lastDotIdx_none_of_not_contains :
    ∀ {l : Str}, l.contains '.' = false → lastDotIdx l = none
  | [], _ => rfl
  | c :: cs, h => by
    rw [List.contains_cons] at h
    simp only [Bool.or_eq_false_iff] at h
    unfold lastDotIdx
    rw [lastDotIdx_none_of_not_contains h.2]
    have hc : (c == '.') = false := by
      rw [beq_eq_false_iff_ne]
      intro he
      have h1 := h.1
      rw [beq_eq_false_iff_ne] at h1
      exact h1 he.symm
    simp [hc]

theorem not_contains_of_lastDotIdx_none :
    ∀ {l : Str}, lastDotIdx l = none → l.contains '.' = false
  | [], _ => rfl
  | c :: cs, h => by
    unfold lastDotIdx at h
    cases hcs : lastDotIdx cs with
    | some i =>
      rw [hcs] at h
      exact absurd h (by simp)
    | none =>
      rw [hcs] at h
      by_cases hc : c = '.'
      · subst hc
        simp at h
      · rw [List.contains_cons]
        have h2 : ('.' == c) = false := beq_eq_false_iff_ne.mpr (Ne.symm hc)
        rw [h2, not_contains_of_lastDotIdx_none hcs]
        rfl

theorem lastDotIdx_append_dot {r : Str} (hr : r.contains '.' = false) :
    ∀ c : Str, lastDotIdx (c ++ '.' :: r) = some c.length
  | [] => by
    simp only [List.nil_append]
    unfold lastDotIdx
    rw [lastDotIdx_none_of_not_contains hr]
    simp
  | x :: xs => by
    rw [List.cons_append]
    unfold lastDotIdx
    rw [lastDotIdx_append_dot hr xs]
    rfl

theorem pyStem_append_suffix {c r : Str} (hc : c ≠ []) (hrne : r ≠ [])
    (hr : r.contains '.' = false) : pyStem (c ++ '.' :: r) = c := by
  unfold pyStem
  rw [lastDotIdx_append_dot hr c]
  dsimp only
  have hlen : (c ++ '.' :: r).length = c.length + 1 + r.length := by
    simp [List.length_append]
    omega
  have hcond : 0 < c.length ∧ c.length + 1 < (c ++ '.' :: r).length := by
    constructor
    · exact List.length_pos.mpr hc
    · rw [hlen]
      have : 0 < r.length := List.length_pos.mpr hrne
      omega
  rw [if_pos hcond]
  exact List.take_left c ('.' :: r)

theorem lastDotIdx_drop : ∀ {l : Str} {i : Nat}, lastDotIdx l = some i →
    ∃ r, l.drop i = '.' :: r ∧ r.contains '.' = false
  | [], i, h => by simp [lastDotIdx] at h
  | c :: cs, i, h => by
    unfold lastDotIdx at h
    cases hcs : lastDotIdx cs with
    | some i' =>
      rw [hcs] at h
      simp only [Option.some.injEq] at h
      subst h
      obtain ⟨r, hdrop, hrc⟩ := lastDotIdx_drop hcs
      exact ⟨r, by simpa [List.drop] using hdrop, hrc⟩
    | none =>
      rw [hcs] at h
      by_cases hc : (c == '.') = true
      · rw [if_pos hc] at h
        simp only [Option.some.injEq] at h
        subst h
        have hcd : c = '.' := eq_of_beq hc
        subst hcd
        exact ⟨cs, rfl, not_contains_of_lastDotIdx_none hcs⟩
      · rw [if_neg hc] at h
        cases h

theorem pySuffix_shape (l : Str) :
    pySuffix l = [] ∨ ∃ r, pySuffix l = '.' :: r ∧ r ≠ [] ∧ r.contains '.' = false := by
  unfold pySuffix
  cases h : lastDotIdx l with
  | none => left; rfl
  | some i =>
    dsimp only
    by_cases hcond : 0 < i ∧ i + 1 < l.length
    · right
      rw [if_pos hcond]
      obtain ⟨r, hdrop, hrc⟩ := lastDotIdx_drop h
      refine ⟨r, hdrop, ?_, hrc⟩
      have hlen : (l.drop i).length = l.length - i := List.length_drop i l
      rw [hdrop] at hlen
      simp only [List.length_cons] at hlen
      intro hr0
      rw [hr0] at hlen
      simp at hlen
      omega
    · left
      rw [if_neg hcond]

/-! ### `processFile` characterization -/

theorem processFile_not_file {m : SMap} {oracle : Str → Str → Bool} {f : FsEntry}
    (h : f.isFile = false) : processFile m oracle f = (none, f) := by
  simp [processFile, h]

theorem processFile_no_match {m : SMap} {oracle : Str → Str → Bool} {f : FsEntry}
    (hf : f.isFile = true)
    (h : reMatchSerial (stripParen (pyStem f.name)) = false) :
    processFile m oracle f = (none, f) := by
  simp [processFile, hf, h]

theorem processFile_not_found {m : SMap} {oracle : Str → Str → Bool} {f : FsEntry}
    (hf : f.isFile = true)
    (hm : reMatchSerial (stripParen (pyStem f.name)) = true)
    (h : lookupS (stripParen (pyStem f.name)) m = none) :
    processFile m oracle f =
      (some (Event.notFound (stripParen (pyStem f.name)) f.name), f) := by
  simp [processFile, hf, hm, h]

theorem processFile_found {m : SMap} {oracle : Str → Str → Bool} {f : FsEntry} {t : Str}
    (hf : f.isFile = true)
    (hm : reMatchSerial (stripParen (pyStem f.name)) = true)
    (h : lookupS (stripParen (pyStem f.name)) m = some t) :
    processFile m oracle f =
      (if oracle f.name (sanitize_filename t ++ pySuffix f.name) then
        (some (Event.renamed f.name (sanitize_filename t ++ pySuffix f.name)),
          ⟨sanitize_filename t ++ pySuffix f.name, true⟩)
      else (some (Event.renameError f.name), f)) := by
  simp [processFile, hf, hm, h]

/-! ### Mapping-builder invariants -/

theorem acceptSerial_shape {e : Entry} {s : Str} (h : acceptSerial e = some s) :
    ∃ a b, a ≠ [] ∧ b ≠ [] ∧ s = a ++ '-' :: b := by
  unfold acceptSerial at h
  split at h
  · cases h
  · split at h
    · cases h
    · dsimp only at h
      split at h
      · cases h
      · rename_i hcomp
        simp only [Option.some.injEq] at h
        subst h
        rw [not_or] at hcomp
        exact ⟨_, _, hcomp.1, hcomp.2, rfl⟩

theorem entryStep_mapping_cases (st : BState) (e : Entry) :
    (entryStep st e).mapping = st.mapping ∨
    ∃ s, acceptSerial e = some s ∧ pick_title e ≠ [] ∧ s ∉ st.seen ∧
      (entryStep st e).mapping = st.mapping ++ [(s, pick_title e)] ∧
      (entryStep st e).seen = s :: st.seen := by
  unfold entryStep
  cases ha : acceptSerial e with
  | none => left; rfl
  | some s =>
    dsimp only
    by_cases hs : s ∈ st.seen
    · rw [if_pos hs]; left; rfl
    · rw [if_neg hs]
      by_cases ht : pick_title e = []
      · rw [if_pos ht]; left; rfl
      · rw [if_neg ht]
        right
        exact ⟨s, rfl, ht, hs, rfl, rfl⟩

theorem entryStep_seen_cases (st : BState) (e : Entry) :
    (entryStep st e).seen = st.seen ∨
    ∃ s, acceptSerial e = some s ∧ pick_title e ≠ [] ∧
      (entryStep st e).seen = s :: st.seen := by
  rcases entryStep_mapping_cases st e with h | ⟨s, ha, ht, _, _, hseen⟩
  · unfold entryStep at h ⊢
    cases ha : acceptSerial e with
    | none => left; rfl
    | some s =>
      dsimp only
      by_cases hs : s ∈ st.seen
      · rw [if_pos hs]; left; rfl
      · rw [if_neg hs]
        by_cases ht : pick_title e = []
        · rw [if_pos ht]; left; rfl
        · rw [if_neg ht]
          right
          exact ⟨s, rfl, ht, rfl⟩
  · right
    exact ⟨s, ha, ht, hseen⟩

theorem entryStep_seen_mono {st : BState} {e : Entry} {x : Str}
    (h : x ∈ st.seen) : x ∈ (entryStep st e).seen := by
  rcases entryStep_seen_cases st e with hc | ⟨s, _, _, hc⟩
  · rw [hc]; exact h
  · rw [hc]; exact List.mem_cons_of_mem _ h

theorem foldl_seen_mono {x : Str} :
    ∀ (l : List Entry) (st : BState), x ∈ st.seen → x ∈ (l.foldl entryStep st).seen
  | [], _, h => h
  | e :: es, st, h => foldl_seen_mono es (entryStep st e) (entryStep_seen_mono h)

theorem foldl_seen_new {s : Str} :
    ∀ (l : List Entry) (st : BState), s ∉ st.seen →
      (∀ e ∈ l, ¬(acceptSerial e = some s ∧ pick_title e ≠ [])) →
      s ∉ (l.foldl entryStep st).seen
  | [], _, h, _ => h
  | e :: es, st, h, hall => by
    apply foldl_seen_new es (entryStep st e)
    · rcases entryStep_seen_cases st e with hc | ⟨s', ha, ht, hc⟩
      · rw [hc]; exact h
      · rw [hc]
        intro hmem
        rcases List.mem_cons.mp hmem with heq | hmem'
        · exact hall e (List.mem_cons_self _ _) ⟨heq ▸ ha, ht⟩
        · exact h hmem'
    · exact fun e' he' => hall e' (List.mem_cons_of_mem _ he')

theorem entryStep_wf {st : BState} {e : Entry} (h : WfState st) :
    WfState (entryStep st e) := by
  rcases entryStep_mapping_cases st e with hc | ⟨s, _, _, hs, hmap, hseen⟩
  · intro p hp
    rw [hc] at hp
    rcases entryStep_seen_cases st e with hsc | ⟨s', _, _, hsc⟩
    · rw [hsc]; exact h p hp
    · rw [hsc]; exact List.mem_cons_of_mem _ (h p hp)
  · intro p hp
    rw [hmap] at hp
    rw [hseen]
    rcases List.mem_append.mp hp with hold | hnew
    · exact List.mem_cons_of_mem _ (h p hold)
    · rw [List.mem_singleton] at hnew
      subst hnew
      exact List.mem_cons_self _ _

theorem foldl_wf : ∀ (l : List Entry) (st : BState), WfState st →
    WfState (l.foldl entryStep st)
  | [], _, h => h
  | e :: es, st, h => foldl_wf es (entryStep st e) (entryStep_wf h)

theorem lookup_none_of_not_seen {st : BState} (hwf : WfState st) {s : Str}
    (hs : s ∉ st.seen) : lookupS s st.mapping = none := by
  cases h : lookupS s st.mapping with
  | none => rfl
  | some v => exact absurd (hwf (s, v) (lookupS_mem h)) hs

theorem entryStep_lookup_preserved {st : BState} {e : Entry} {s : Str}
    (hs : s ∈ st.seen) :
    lookupS s (entryStep st e).mapping = lookupS s st.mapping := by
  rcases entryStep_mapping_cases st e with hc | ⟨s', _, _, hs', hmap, _⟩
  · rw [hc]
  · rw [hmap]
    have hne : s' ≠ s := fun h => hs' (h ▸ hs)
    exact lookupS_append_ne hne st.mapping

theorem foldl_lookup_preserved {s : Str} :
    ∀ (l : List Entry) (st : BState), s ∈ st.seen →
      lookupS s (l.foldl entryStep st).mapping = lookupS s st.mapping
  | [], _, _ => rfl
  | e :: es, st, h => by
    rw [List.foldl_cons,
      foldl_lookup_preserved es (entryStep st e) (entryStep_seen_mono h),
      entryStep_lookup_preserved h]

theorem entryStep_good {st : BState} {e : Entry}
    (h : ∀ p ∈ st.mapping, GoodPair p) :
    ∀ p ∈ (entryStep st e).mapping, GoodPair p := by
  rcases entryStep_mapping_cases st e with hc | ⟨s, ha, ht, _, hmap, _⟩
  · rw [hc]; exact h
  · rw [hmap]
    intro p hp
    rcases List.mem_append.mp hp with hold | hnew
    · exact h p hold
    · rw [List.mem_singleton] at hnew
      subst hnew
      exact ⟨acceptSerial_shape ha, ht⟩

theorem foldl_good : ∀ (l : List Entry) (st : BState),
    (∀ p ∈ st.mapping, GoodPair p) →
    ∀ p ∈ (l.foldl entryStep st).mapping, GoodPair p
  | [], _, h => h
  | e :: es, st, h => foldl_good es (entryStep st e) (entryStep_good h)

theorem buildLoopE_good {fetch : Str → Except Str Page} :
    ∀ (fuel : Nat) (url : Option Str) (st : BState) (tr : List Str) (st' : BState),
      (∀ p ∈ st.mapping, GoodPair p) →
      buildLoopE fetch fuel url st = some (Except.ok (tr, st')) →
      ∀ p ∈ st'.mapping, GoodPair p
  | 0, _, _, _, _, _, h => by cases h
  | _ + 1, none, st, tr, st', hg, h => by
    simp only [buildLoopE, Option.some.injEq, Except.ok.injEq, Prod.mk.injEq] at h
    rw [← h.2]
    exact hg
  | fuel + 1, some u, st, tr, st', hg, h => by
    unfold buildLoopE at h
    by_cases hu : u = []
    · rw [if_pos hu] at h
      simp only [Option.some.injEq, Except.ok.injEq, Prod.mk.injEq] at h
      rw [← h.2]
      exact hg
    · rw [if_neg hu] at h
      split at h
      · simp at h
      · rename_i page hf
        split at h
        · simp at h
        · simp at h
        · rename_i tr'' st'' hrec
          simp only [Option.some.injEq, Except.ok.injEq, Prod.mk.injEq] at h
          rw [← h.2]
          exact buildLoopE_good fuel page.next _ tr'' st''
            (foldl_good page.results st hg) hrec

theorem find?_append_none {α : Type} {p : α → Bool} :
    ∀ {l1 : List α} (l2 : List α), (∀ x ∈ l1, p x = false) →
      (l1 ++ l2).find? p = l2.find? p
  | [], _, _ => rfl
  | a :: as, l2, h => by
    rw [List.cons_append]
    have ha : ¬ p a = true := by
      rw [h a (List.mem_cons_self _ _)]
      exact Bool.false_ne_true
    rw [List.find?_cons_of_neg _ ha]
    exact find?_append_none l2 (fun x hx => h x (List.mem_cons_of_mem _ hx))

theorem pick_title_eq (e : Entry) :
    pick_title e =
      match ((e.name.getD ⟨none, none⟩).translations.getD []).find? transQualifies with
      | some t => pyStrip (t.value.getD [])
      | none => pyStrip ((e.name.getD ⟨none, none⟩).default_value.getD []) := rfl

theorem nextUrl_some {p : Page} {w : Str} (h : nextUrl p = some w) :
    p.next = some w ∧ w ≠ [] := by
  unfold nextUrl at h
  split at h
  · cases h
  · rename_i u hn
    by_cases hu : u = []
    · rw [if_pos hu] at h; cases h
    · rw [if_neg hu] at h
      simp only [Option.some.injEq] at h
      subst h
      exact ⟨hn, hu⟩

theorem nextUrl_none {p : Page} (h : nextUrl p = none) :
    p.next = none ∨ p.next = some [] := by
  unfold nextUrl at h
  split at h
  · rename_i hn
    exact Or.inl hn
  · rename_i u hn
    by_cases hu : u = []
    · subst hu
      exact Or.inr hn
    · rw [if_neg hu] at h
      cases h

theorem buildLoopE_err_fetch {fetch : Str → Except Str Page} {fuel : Nat}
    {u e : Str} {st : BState} (hne : u ≠ []) (hf : fetch u = Except.error e) :
    buildLoopE fetch (fuel + 1) (some u) st = some (Except.error e) := by
  unfold buildLoopE
  rw [if_neg hne, hf]

theorem buildLoopE_ok_fetch {fetch : Str → Except Str Page} {fuel : Nat}
    {u : Str} {st : BState} {page : Page}
    (hne : u ≠ []) (hf : fetch u = Except.ok page) :
    buildLoopE fetch (fuel + 1) (some u) st =
      match buildLoopE fetch fuel page.next (page.results.foldl entryStep st) with
      | none => none
      | some (Except.error e) => some (Except.error e)
      | some (Except.ok (tr, st')) => some (Except.ok (u :: tr, st')) := by
  conv_lhs => unfold buildLoopE
  rw [if_neg hne, hf]

theorem candidate_of_new_name {t n : Str}
    (h1 : reMatchSerial (stripParen (sanitize_filename t)) = false)
    (h2 : reMatchSerial (stripParen (pyStem (sanitize_filename t))) = false) :
    reMatchSerial (stripParen (pyStem (sanitize_filename t ++ pySuffix n))) = false := by
  rcases pySuffix_shape n with he | ⟨r, he, hrne, hrc⟩
  · rw [he, List.append_nil]
    exact h2
  · rw [he]
    by_cases hc : sanitize_filename t = []
    · rw [hc, List.nil_append]
      have hstem : pyStem ('.' :: r) = '.' :: r := by
        unfold pyStem
        have hld : lastDotIdx ('.' :: r) = some 0 := by
          unfold lastDotIdx
          rw [lastDotIdx_none_of_not_contains hrc]
          simp
        rw [hld]
        dsimp only
        rw [if_neg (by omega)]
      rw [hstem]
      exact reMatchSerial_stripParen_false (c := '.') rfl (by decide)
    · rw [pyStem_append_suffix hc hrne hrc]
      exact h1

theorem buildLoopE_error_of_reach {fetch : Str → Except Str Page} {u e : Str}
    (hfail : fetch u = Except.error e) :
    ∀ (us : List Str) (s : Str) (fuel : Nat) (st : BState),
      reachesB fetch s us u = true → us.length < fuel →
      buildLoopE fetch fuel (some s) st = some (Except.error e)
  | [], s, fuel, st, hreach, hfuel => by
    unfold reachesB at hreach
    simp only [Bool.and_eq_true] at hreach
    obtain ⟨h1, h2⟩ := hreach
    have hsu : s = u := eq_of_beq h1
    subst hsu
    have hne : s ≠ [] := by
      rw [Bool.not_eq_eq_eq_not, Bool.not_true] at h2
      exact beq_eq_false_iff_ne.mp h2
    cases fuel with
    | zero => omega
    | succ f =>
      exact buildLoopE_err_fetch hne hfail
  | v :: rest, s, fuel, st, hreach, hfuel => by
    unfold reachesB at hreach
    simp only [Bool.and_eq_true] at hreach
    obtain ⟨⟨h1, h2⟩, h3⟩ := hreach
    have hsv : s = v := eq_of_beq h1
    subst hsv
    have hne : s ≠ [] := by
      rw [Bool.not_eq_eq_eq_not, Bool.not_true] at h2
      exact beq_eq_false_iff_ne.mp h2
    cases hf : fetch s with
    | error e' =>
      rw [hf] at h3
      simp at h3
    | ok page =>
      rw [hf] at h3
      dsimp only at h3
      cases hn : nextUrl page with
      | none =>
        rw [hn] at h3
        simp at h3
      | some w =>
        rw [hn] at h3
        dsimp only at h3
        cases fuel with
        | zero => simp at hfuel
        | succ f =>
          rw [buildLoopE_ok_fetch hne hf, (nextUrl_some hn).1]
          rw [buildLoopE_error_of_reach hfail rest w f _ h3
            (by simp at hfuel; omega)]

theorem entryStep_record {st : BState} {e : Entry} {s : Str}
    (ha : acceptSerial e = some s) (hs : s ∉ st.seen) (ht : pick_title e ≠ []) :
    entryStep st e = ⟨st.mapping ++ [(s, pick_title e)], s :: st.seen⟩ := by
  unfold entryStep
  rw [ha]
  dsimp only
  rw [if_neg hs, if_neg ht]

/-! ## Claims -/

/-- C2: for every catalog entry, the Title Selector returns the trimmed
value of the first translation (in sequence order) whose language tag
contains "english" case-insensitively and whose value is non-empty after
trimming; if no translation qualifies, it returns the trimmed default
title (possibly empty). -/
theorem pick_title_spec (e : Entry) :
    (∀ pre t post,
        (e.name.getD ⟨none, none⟩).translations.getD [] = pre ++ t :: post →
        transQualifies t = true →
        (∀ t' ∈ pre, transQualifies t' = false) →
        pick_title e = pyStrip (t.value.getD []))
    ∧ ((∀ t ∈ (e.name.getD ⟨none, none⟩).translations.getD [], transQualifies t = false) →
        pick_title e = pyStrip ((e.name.getD ⟨none, none⟩).default_value.getD [])) := by
  constructor
  · intro pre t post htr hq hpre
    rw [pick_title_eq, htr, find?_append_none _ hpre, List.find?_cons_of_pos _ hq]
  · intro hall
    rw [pick_title_eq, List.find?_eq_none.mpr
      (fun x hx => by rw [hall x hx]; exact Bool.false_ne_true)]

/-- Witness for C2: the three examples of the claim — English translation
preferred over French, default used when no English match, empty string
when everything is empty. -/
theorem pick_title_spec_witness :
    pick_title entryC2a = ("Y".toList)
    ∧ pick_title entryC2b = ("Z".toList)
    ∧ pick_title entryC2c = [] := by
  refine ⟨?_, ?_, ?_⟩
  · have h := (pick_title_spec entryC2a).1 [transFr] transEn [] (by decide)
      (by decide) (by decide)
    rw [h]
    decide
  · have h := (pick_title_spec entryC2b).2 (by decide)
    rw [h]
    decide
  · exact (pick_title_spec entryC2c).2 (by decide)

/-- C4: the Filename Sanitizer removes every occurrence of the nine
characters and then trims leading and trailing whitespace, leaving all
other characters unchanged (its output is a sublist of the input, with no
illegal character surviving, and no truncation beyond the removals and
trim); in particular the claim's literal example holds with the two
interior spaces preserved. -/
theorem sanitize_filename_spec :
    (∀ s : Str,
      sanitize_filename s = pyStrip (s.filter (fun c => !isIllegalChar c))
      ∧ List.Sublist (sanitize_filename s) s
      ∧ ∀ c, c ∈ sanitize_filename s → isIllegalChar c = false)
    ∧ sanitize_filename ("My: Game? / Title*".toList) = ("My Game  Title".toList) := by
  constructor
  · intro s
    refine ⟨rfl, (pyStrip_sublist _).trans (List.filter_sublist s), ?_⟩
    intro c hc
    have hc' : c ∈ s.filter (fun c => !isIllegalChar c) := (pyStrip_sublist _).mem hc
    have hkeep := (List.mem_filter.mp hc').2
    cases hil : isIllegalChar c
    · rfl
    · rw [hil] at hkeep
      simp at hkeep
  · decide

/-- Witness for C4: the sanitized example contains no illegal character
and the output of the sanitizer is a sublist of its input. -/
theorem sanitize_filename_spec_witness :
    isIllegalChar 'M' = false
    ∧ List.Sublist (sanitize_filename ("My: Game?".toList)) ("My: Game?".toList) :=
  ⟨(sanitize_filename_spec.1 ("My: Game?".toList)).2.2 'M' (by decide),
   (sanitize_filename_spec.1 ("My: Game?".toList)).2.1⟩

/-- C10: the Renamer applies no non-emptiness check after sanitization —
for a mapping entry whose (non-empty) title consists solely of
Windows-illegal characters and whitespace, the sanitized title is empty
and the rename is still attempted, with the new name equal to the
original extension alone. -/
theorem empty_sanitized_title_still_renamed (m : SMap) (oracle : Str → Str → Bool)
    (f : FsEntry) (t : Str)
    (hf : f.isFile = true)
    (hmatch : reMatchSerial (stripParen (pyStem f.name)) = true)
    (hlook : lookupS (stripParen (pyStem f.name)) m = some t)
    (ht : t ≠ [])
    (hbad : ∀ c ∈ t, isIllegalChar c = true ∨ pyIsSpace c = true) :
    processFile m oracle f =
      (if oracle f.name (pySuffix f.name) then
        (some (Event.renamed f.name (pySuffix f.name)), ⟨pySuffix f.name, true⟩)
      else (some (Event.renameError f.name), f)) := by
  have hsan : sanitize_filename t = [] := sanitize_eq_nil hbad
  rw [processFile_found hf hmatch hlook, hsan]
  rfl

/-- Witness for C10: mapping `{"AAAA-11111": ":::"}` renames
`AAAA-11111.iso` to the bare extension `.iso`. -/
theorem empty_sanitized_title_still_renamed_witness :
    processFile mapC10 oracleT ⟨"AAAA-11111.iso".toList, true⟩ =
      (some (Event.renamed ("AAAA-11111.iso".toList) (".iso".toList)),
        ⟨".iso".toList, true⟩) := by
  have h := empty_sanitized_title_still_renamed mapC10 oracleT
    ⟨"AAAA-11111.iso".toList, true⟩ (":::".toList) rfl (by decide) (by decide)
    (by decide) (by decide)
  exact h

/-- C6: a rename failure on one file is caught within that file's
iteration, logged as an error event, and does not abort the scan — the
events of the files before and after the failing one are exactly those of
processing them alone. -/
theorem rename_failure_isolated (m : SMap) (oracle : Str → Str → Bool)
    (l1 l2 : List FsEntry) (f : FsEntry) (t : Str)
    (hf : f.isFile = true)
    (hmatch : reMatchSerial (stripParen (pyStem f.name)) = true)
    (hlook : lookupS (stripParen (pyStem f.name)) m = some t)
    (hfail : oracle f.name (sanitize_filename t ++ pySuffix f.name) = false) :
    rename_ps2_files m oracle (l1 ++ f :: l2) =
      rename_ps2_files m oracle l1
        ++ Event.renameError f.name :: rename_ps2_files m oracle l2 := by
  have hpf : processFile m oracle f = (some (Event.renameError f.name), f) := by
    rw [processFile_found hf hmatch hlook,
      if_neg (by rw [hfail]; exact Bool.false_ne_true)]
  simp [rename_ps2_files, List.filterMap_append, List.filterMap_cons, hpf]

/-- Witness for C6: with a failing rename oracle, the error on
`SCUS-12345.iso` is logged and the remaining file is still processed. -/
theorem rename_failure_isolated_witness :
    rename_ps2_files mapC6 oracleF
        ([⟨"notes.txt".toList, true⟩] ++ ⟨"SCUS-12345.iso".toList, true⟩
          :: [⟨"SLUS-00001.bin".toList, true⟩]) =
      rename_ps2_files mapC6 oracleF [⟨"notes.txt".toList, true⟩]
        ++ Event.renameError ("SCUS-12345.iso".toList)
          :: rename_ps2_files mapC6 oracleF [⟨"SLUS-00001.bin".toList, true⟩] :=
  rename_failure_isolated mapC6 oracleF _ _ _ ("Game".toList) rfl (by decide)
    (by decide) rfl

/-- C5 counterexample: the claim says a file is processed only if its
candidate matches `^[A-Z]{4}-\d{5}$` exactly, but Python's `$` also
matches before a trailing newline: the file `"ABCD-12345\n.iso"` has
candidate `"ABCD-12345\n"`, which is not exactly of the `LLLL-NNNNN`
serial format, yet the file is processed (and here renamed). -/
theorem serial_extraction_counterexample :
    (processFile mapC5 oracleT ⟨("ABCD-12345\n.iso".toList), true⟩).fst
        = some (Event.renamed ("ABCD-12345\n.iso".toList) ("T.iso".toList))
    ∧ specSerialFormat (stripParen (pyStem ("ABCD-12345\n.iso".toList))) = false := by
  exact ⟨rfl, by decide⟩

/-- C5 (amended): the Renamer derives the candidate code by splitting the
name into stem and extension and removing the trailing parenthesized
suffix, and processes the file (emits an event) exactly when the
candidate matches `^[A-Z]{4}-\d{5}$` under Python `re.match` semantics
(where `$` also accepts one trailing newline); otherwise the file is
skipped silently and left unchanged. -/
theorem serial_extraction (m : SMap) (oracle : Str → Str → Bool) (f : FsEntry)
    (hf : f.isFile = true) :
    ((processFile m oracle f).fst.isSome = reMatchSerial (stripParen (pyStem f.name)))
    ∧ (reMatchSerial (stripParen (pyStem f.name)) = false →
        processFile m oracle f = (none, f)) := by
  constructor
  · cases hm : reMatchSerial (stripParen (pyStem f.name)) with
    | false =>
      rw [processFile_no_match hf hm]
      rfl
    | true =>
      cases hl : lookupS (stripParen (pyStem f.name)) m with
      | none =>
        rw [processFile_not_found hf hm hl]
        rfl
      | some t =>
        rw [processFile_found hf hm hl]
        by_cases ho : oracle f.name (sanitize_filename t ++ pySuffix f.name) = true
        · rw [if_pos ho]
          rfl
        · rw [if_neg ho]
          rfl
  · exact processFile_no_match hf

/-- Witness for C5: `SCUS-12345 (USA).iso` is processed (its candidate is
`SCUS-12345`), while `readme.txt` is skipped silently. -/
theorem serial_extraction_witness :
    (processFile mapC6 oracleT ⟨("SCUS-12345 (USA).iso".toList), true⟩).fst.isSome = true
    ∧ processFile mapC6 oracleT ⟨("readme.txt".toList), true⟩ =
        (none, ⟨("readme.txt".toList), true⟩) := by
  constructor
  · have h := (serial_extraction mapC6 oracleT ⟨("SCUS-12345 (USA).iso".toList), true⟩ rfl).1
    rw [h]
    decide
  · exact (serial_extraction mapC6 oracleT ⟨("readme.txt".toList), true⟩ rfl).2 (by decide)

/-- C3: among entries that pass the platform, content-type,
serial-component and non-empty-title filters and share the same serial,
only the first occurrence (in page-then-entry order) is recorded: the
mapped title for that serial is the one selected from the first such
entry, whatever comes later. -/
theorem first_occurrence_wins (l1 l2 : List Entry) (e1 : Entry) (s : Str)
    (ha : acceptSerial e1 = some s) (ht : pick_title e1 ≠ [])
    (hpre : ∀ e ∈ l1, ¬(acceptSerial e = some s ∧ pick_title e ≠ [])) :
    lookupS s (buildFromEntries (l1 ++ e1 :: l2)) = some (pick_title e1) := by
  unfold buildFromEntries
  rw [List.foldl_append, List.foldl_cons]
  have hwf1 : WfState (l1.foldl entryStep ⟨[], []⟩) :=
    foldl_wf l1 ⟨[], []⟩ (fun p hp => absurd hp (List.not_mem_nil p))
  have hs1 : s ∉ (l1.foldl entryStep ⟨[], []⟩).seen :=
    foldl_seen_new l1 ⟨[], []⟩ (List.not_mem_nil s) hpre
  have hstep := entryStep_record ha hs1 ht
  have hlook2 : lookupS s (entryStep (l1.foldl entryStep ⟨[], []⟩) e1).mapping
      = some (pick_title e1) := by
    rw [hstep]
    dsimp only
    rw [lookupS_append_none (lookup_none_of_not_seen hwf1 hs1)]
    simp [lookupS]
  have hseen2 : s ∈ (entryStep (l1.foldl entryStep ⟨[], []⟩) e1).seen := by
    rw [hstep]
    exact List.mem_cons_self _ _
  rw [foldl_lookup_preserved l2 _ hseen2, hlook2]

/-- Witness for C3: two entries with serial `SCUS-12345` — the stored
title is `"First"`, from the first entry; the second is discarded. -/
theorem first_occurrence_wins_witness :
    lookupS ("SCUS-12345".toList) (buildFromEntries ([] ++ entry3a :: [entry3b]))
      = some (pick_title entry3a) :=
  first_occurrence_wins [] [entry3b] entry3a ("SCUS-12345".toList) (by decide)
    (by decide) (fun e he => absurd he (List.not_mem_nil e))

/-- C1 counterexample: a catalog entry with components `"X"` and `"1"`
passes every filter of the Mapping Builder, so the key `"X-1"` — which is
not a syntactically valid `LLLL-NNNNN` serial code — is recorded. -/
theorem mapping_key_valid_counterexample :
    build_ps2_title_mapping fetchBad 2
        = some (Except.ok [(("X-1".toList), ("T".toList))])
    ∧ specSerialFormat ("X-1".toList) = false := by
  exact ⟨rfl, by decide⟩

/-- C1 (amended): every key recorded by `build_ps2_title_mapping` is of
the form `{trimmed type}-{trimmed number}` with both components
non-empty, and its associated title is non-empty; the `LLLL-NNNNN`
format itself is not enforced by the builder. -/
theorem mapping_key_shape (fetch : Str → Except Str Page) (fuel : Nat) (m : SMap)
    (h : build_ps2_title_mapping fetch fuel = some (Except.ok m)) :
    ∀ k v, (k, v) ∈ m →
      (∃ a b, a ≠ [] ∧ b ≠ [] ∧ k = a ++ '-' :: b) ∧ v ≠ [] := by
  unfold build_ps2_title_mapping at h
  split at h
  · cases h
  · simp at h
  · rename_i tr st hloop
    simp only [Option.some.injEq, Except.ok.injEq] at h
    subst h
    intro k v hkv
    exact buildLoopE_good fuel (some START_URL) ⟨[], []⟩ tr st
      (fun p hp => absurd hp (List.not_mem_nil p)) hloop (k, v) hkv

/-- Witness for C1: a well-formed catalog run records `SCUS-12345` with
the non-empty title `"Game"`, and the key splits as required. -/
theorem mapping_key_shape_witness :
    (∃ a b, a ≠ [] ∧ b ≠ [] ∧ ("SCUS-12345".toList) = a ++ '-' :: b)
    ∧ ("Game".toList) ≠ [] :=
  mapping_key_shape fetchGood 2 [(("SCUS-12345".toList), ("Game".toList))] rfl
    ("SCUS-12345".toList) ("Game".toList) (by decide)

/-- C9: the pagination loop terminates exactly when a page's `next` field
is absent, null, or empty — for every finite URL chain whose last page has
an absent/empty `next`, the Mapping Builder fetches precisely those pages
in order (each page's `next` becoming the next request URL) and stops. -/
theorem pagination_fetches_chain (fetch : Str → Except Str Page) :
    ∀ (us : List Str) (u : Str) (fuel : Nat) (st : BState),
      followsB fetch u us = true → us.length < fuel →
      ∃ st', buildLoopE fetch fuel (some u) st = some (Except.ok (us, st'))
  | [], _, _, _, hch, _ => by
    unfold followsB at hch
    cases hch
  | v :: rest, u, fuel, st, hch, hfuel => by
    unfold followsB at hch
    simp only [Bool.and_eq_true] at hch
    obtain ⟨⟨h1, h2⟩, h3⟩ := hch
    have hu : u = v := eq_of_beq h1
    subst hu
    have hv : u ≠ [] := by
      rw [Bool.not_eq_eq_eq_not, Bool.not_true] at h2
      exact beq_eq_false_iff_ne.mp h2
    cases fuel with
    | zero => simp at hfuel
    | succ f =>
      cases hfe : fetch u with
      | error e =>
        rw [hfe] at h3
        simp at h3
      | ok page =>
        rw [hfe] at h3
        dsimp only at h3
        cases rest with
        | nil =>
          cases hn : nextUrl page with
          | none =>
            have hf1 : 0 < f := by
              simp only [List.length_cons, List.length_nil] at hfuel
              omega
            have hrec : buildLoopE fetch f page.next (page.results.foldl entryStep st)
                = some (Except.ok ([], page.results.foldl entryStep st)) := by
              cases f with
              | zero => omega
              | succ f' =>
                rcases nextUrl_none hn with hh | hh
                · rw [hh]
                  rfl
                · rw [hh]
                  unfold buildLoopE
                  rw [if_pos rfl]
            rw [buildLoopE_ok_fetch hv hfe, hrec]
            exact ⟨_, rfl⟩
          | some w =>
            rw [hn] at h3
            simp at h3
        | cons r rs =>
          cases hn : nextUrl page with
          | none =>
            rw [hn] at h3
            simp at h3
          | some w =>
            rw [hn] at h3
            dsimp only at h3
            obtain ⟨st', hst'⟩ := pagination_fetches_chain fetch (r :: rs) w f
              (page.results.foldl entryStep st) h3
              (by simp only [List.length_cons] at hfuel ⊢; omega)
            rw [buildLoopE_ok_fetch hv hfe, (nextUrl_some hn).1, hst']
            exact ⟨st', rfl⟩

/-- Witness for C9: a single-page catalog whose page has `next = none` is
fetched exactly once, starting from `START_URL`. -/
theorem pagination_fetches_chain_witness :
    ∃ st', buildLoopE fetchOne 2 (some START_URL) ⟨[], []⟩
      = some (Except.ok ([START_URL], st')) :=
  pagination_fetches_chain fetchOne [START_URL] START_URL 2 ⟨[], []⟩
    (by decide) (by decide)

/-- C7: a failed HTTP fetch or JSON decode during catalog fetching aborts
the whole run before any renaming — the error propagates out of
`build_ps2_title_mapping`, `main` returns that error, and no rename event
is ever produced (no mapping reaches the Renamer). -/
theorem fetch_failure_aborts (fetch : Str → Except Str Page) (fuel : Nat)
    (us : List Str) (u e : Str) (oracle : Str → Str → Bool) (files : List FsEntry)
    (hreach : reachesB fetch START_URL us u = true)
    (hfail : fetch u = Except.error e)
    (hfuel : us.length < fuel) :
    build_ps2_title_mapping fetch fuel = some (Except.error e)
    ∧ main fetch fuel oracle files = some (Except.error e) := by
  have hb : buildLoopE fetch fuel (some START_URL) ⟨[], []⟩ = some (Except.error e) :=
    buildLoopE_error_of_reach hfail us START_URL fuel ⟨[], []⟩ hreach hfuel
  have hbuild : build_ps2_title_mapping fetch fuel = some (Except.error e) := by
    unfold build_ps2_title_mapping
    rw [hb]
  refine ⟨hbuild, ?_⟩
  unfold main
  rw [hbuild]

/-- Witness for C7: a fetch that raises on the very first request makes
both the Mapping Builder and the whole run abort with that error. -/
theorem fetch_failure_aborts_witness :
    build_ps2_title_mapping fetchFail 1 = some (Except.error ("boom".toList))
    ∧ main fetchFail 1 oracleT [] = some (Except.error ("boom".toList)) :=
  fetch_failure_aborts fetchFail 1 [] START_URL ("boom".toList) oracleT []
    (by decide) rfl (by decide)

/-- C8 counterexample: idempotence fails when a stored title is itself a
serial code that is a key of the mapping — after the first run renames
`AAAA-11111.iso` to `BBBB-22222.iso`, a second run renames it again. -/
theorem renamer_idempotent_counterexample :
    rename_ps2_files m8 oracleT (runListing m8 oracleT files8)
      = [Event.renamed ("BBBB-22222.iso".toList) ("Cool.iso".toList)]
    ∧ isRenameAttempt
        (Event.renamed ("BBBB-22222.iso".toList) ("Cool.iso".toList)) = true :=
  ⟨rfl, rfl⟩

theorem second_pass_no_attempt (m : SMap) (oracle2 : Str → Str → Bool)
    (hm : ∀ s t, (s, t) ∈ m →
      reMatchSerial (stripParen (sanitize_filename t)) = false ∧
      reMatchSerial (stripParen (pyStem (sanitize_filename t))) = false)
    (f : FsEntry) {ev : Event}
    (hev : (processFile m oracle2 ((processFile m (fun _ _ => true) f).snd)).fst
      = some ev) :
    isRenameAttempt ev = false := by
  by_cases hfile : f.isFile = true
  · cases hmatch : reMatchSerial (stripParen (pyStem f.name)) with
    | false =>
      rw [processFile_no_match hfile hmatch] at hev
      dsimp only at hev
      rw [processFile_no_match hfile hmatch] at hev
      dsimp only at hev
      exact Option.noConfusion hev
    | true =>
      cases hl : lookupS (stripParen (pyStem f.name)) m with
      | none =>
        rw [processFile_not_found hfile hmatch hl] at hev
        dsimp only at hev
        rw [processFile_not_found hfile hmatch hl] at hev
        dsimp only at hev
        cases hev
        rfl
      | some t =>
        have hsnd : (processFile m (fun _ _ => true) f).snd
            = ⟨sanitize_filename t ++ pySuffix f.name, true⟩ := by
          rw [processFile_found hfile hmatch hl]
          rfl
        have hpair := hm _ _ (lookupS_mem hl)
        have hcand : reMatchSerial (stripParen (pyStem
            (sanitize_filename t ++ pySuffix f.name))) = false :=
          candidate_of_new_name hpair.1 hpair.2
        rw [hsnd] at hev
        have hnm := @processFile_no_match m oracle2
          ⟨sanitize_filename t ++ pySuffix f.name, true⟩ rfl hcand
        rw [hnm] at hev
        dsimp only at hev
        exact Option.noConfusion hev
  · have hfile' : f.isFile = false := by
      rw [Bool.not_eq_true] at hfile
      exact hfile
    rw [processFile_not_file hfile'] at hev
    dsimp only at hev
    rw [processFile_not_file hfile'] at hev
    dsimp only at hev
    exact Option.noConfusion hev

/-- C8 (amended): a second run of the Renamer over the listing produced by
a first run (in which every rename succeeded) performs no rename attempt,
provided no stored title — after sanitization, with or without
stem-splitting — yields a candidate matching the serial pattern; the
counterexample shows the proviso is necessary when a title is itself a
serial code that is a mapping key. -/
theorem renamer_idempotent (m : SMap) (files : List FsEntry)
    (oracle2 : Str → Str → Bool)
    (hm : ∀ s t, (s, t) ∈ m →
      reMatchSerial (stripParen (sanitize_filename t)) = false ∧
      reMatchSerial (stripParen (pyStem (sanitize_filename t))) = false) :
    ∀ ev ∈ rename_ps2_files m oracle2 (runListing m (fun _ _ => true) files),
      isRenameAttempt ev = false := by
  intro ev hev
  unfold rename_ps2_files runListing at hev
  rw [List.filterMap_map] at hev
  obtain ⟨f, _, hev'⟩ := List.mem_filterMap.mp hev
  exact second_pass_no_attempt m oracle2 hm f hev'

/-- Witness for C8: with an ordinary mapping, the only event of the second
run is an informational lookup miss, which is not a rename attempt. -/
theorem renamer_idempotent_witness :
    isRenameAttempt
      (Event.notFound ("BBBB-22222".toList) ("BBBB-22222.iso".toList)) = false := by
  refine renamer_idempotent mW8 filesW8 oracleT ?_ _ ?_
  · intro s t hst
    simp only [mW8] at hst
    rw [List.mem_singleton, Prod.mk.injEq] at hst
    obtain ⟨hs, ht⟩ := hst
    subst hs
    subst ht
    exact ⟨by decide, by decide⟩
  · decide

end PS2
